import Mathlib

/-!
# Verification of the caddy-i18n translation engine

Shallow embedding of the translation engine of the `caddy_i18n` Go module:
the `translationCatalog` type and its methods (`translate`, `getTranslation`,
`unusedMessages`, `writeUnusedMessages`, `savePO`) together with the
side-effecting tail of `ServeHTTP` from `module.go`.

Modelling conventions:
- Go strings are Lean `String`s; operations from Go's `strings` package that
  the engine uses (`TrimSpace`, `Split`, `Trim`, `ReplaceAll`, `HasPrefix`,
  `TrimPrefix`) are re-implemented below on `List Char` by structural
  recursion so that every definition evaluates inside the kernel.
- `language.Tag` values are modelled by their canonical string form; the
  engine only ever compares tags for equality and prints them.
- `mapset.Set` (the `seenMessages` set of a catalog) is modelled as a
  duplicate-free `List String`: `Add` inserts when absent, `Contains` is
  membership, `Remove` filters.
- The parsed HTML document (`*html.Node` / goquery selections) is modelled
  by the `Html`/`HtmlList` tree below.  goquery's `Find(sel).Each(f)`
  collects the matching elements in document (pre-)order before mutating,
  and the engine's mutations never move an element that is still pending in
  the same pass, so each pass is modelled as one pre-order tree walk.
  `SetHtml(s)` parses `s` and installs the fragment; the fragment is
  modelled by the opaque `Html.raw s` node, whose serialization is `s`
  (exact for normalized fragments; marker markup hidden inside a freshly
  installed translation is not re-scanned, matching the fact that such
  nodes were not in the pass's pre-collected node list).
- File-system writes are reified as `FileEffect` values.
-/

namespace CaddyI18n

/-- One gettext catalog entry (`po.Message` restricted to the three fields the
engine reads and writes: `MsgId`, `MsgContext`, `MsgStr`). -/
structure Message where
  msgId : String
  msgContext : String
  msgStr : String
deriving DecidableEq

/-- `translationCatalog`: the loaded po file's message list, the per-pass
accumulators, and the configuration fields the engine reads.  `language` and
`sourceLanguage` hold the string form of the `language.Tag`s. -/
structure Catalog where
  messages : List Message
  seenMessages : List String
  missingMessages : List Message
  language : String
  sourceLanguage : String
  markerAttribute : String
  markerTag : String
  exposeToJS : Bool
deriving DecidableEq

/-- `strings.TrimSpace` (Go `unicode.IsSpace` modelled by `Char.isWhitespace`). -/
def trimSpace (s : String) : String :=
  String.mk (((s.data.dropWhile Char.isWhitespace).reverse.dropWhile Char.isWhitespace).reverse)

/-- `strings.Trim(s, ",")`: drop leading and trailing commas. -/
def trimCommas (s : String) : String :=
  String.mk (((s.data.dropWhile (fun c => c = ',')).reverse.dropWhile (fun c => c = ',')).reverse)

/-- Auxiliary for `strings.Split(s, ",")`, on the character list. -/
def splitOnCommaChars : List Char → List (List Char)
  | [] => [[]]
  | c :: rest =>
    match splitOnCommaChars rest with
    | [] => [[c]]
    | grp :: grps => if c = ',' then [] :: grp :: grps else (c :: grp) :: grps

/-- `strings.Split(s, ",")`. -/
def splitOnComma (s : String) : List String :=
  (splitOnCommaChars s.data).map String.mk

/-- `strings.HasPrefix`. -/
def hasPre (s pre : String) : Bool :=
  pre.data.isPrefixOf s.data

/-- `strings.TrimPrefix(s, pre)` for the call sites below, where `pre` has
already been checked to be a prefix of `s`: drop `pre`'s character count. -/
def dropPre (s pre : String) : String :=
  String.mk (s.data.drop pre.data.length)

/-- Remove the pattern from the front of the list when it is a prefix,
returning the remainder. -/
def stripFront : List Char → List Char → Option (List Char)
  | [], l => some l
  | _ :: _, [] => none
  | p :: ps, c :: cs => if p = c then stripFront ps cs else none

/-- Fuel-driven worker for `strings.ReplaceAll`: at each position, if the
pattern starts here, emit the replacement and skip the pattern, else keep the
character.  Each step consumes at least one input character, so fuel equal to
the input length is always sufficient for the non-empty patterns used below
(the literal marker-tag strings `<tag>` and `</tag>`). -/
def replaceAllChars (pat rep : List Char) : Nat → List Char → List Char
  | _, [] => []
  | 0, l => l
  | fuel + 1, c :: rest =>
    match stripFront pat (c :: rest) with
    | some remaining => rep ++ replaceAllChars pat rep fuel remaining
    | none => c :: replaceAllChars pat rep fuel rest

/-- `strings.ReplaceAll` (for non-empty patterns). -/
def replaceAll (s pat rep : String) : String :=
  String.mk (replaceAllChars pat.data rep.data s.data.length s.data)

/-- Escape one character the way `x/net/html` does for text and attribute
values (its `escapedChars = "&'<>\""`). -/
def escChar (c : Char) : String :=
  if c = '&' then "&amp;"
  else if c = Char.ofNat 39 then "&#39;"
  else if c = '<' then "&lt;"
  else if c = '>' then "&gt;"
  else if c = Char.ofNat 34 then "&#34;"
  else String.singleton c

/-- Serialization-side escaping of text nodes and attribute values. -/
def escapeText (s : String) : String :=
  String.join (s.data.map escChar)

/-- `html.UnescapeString` restricted to the entities the serializer above can
produce plus the common named forms (the full HTML entity table is elided). -/
def unescapeChars : List Char → List Char
  | [] => []
  | '&' :: 'a' :: 'm' :: 'p' :: ';' :: rest => '&' :: unescapeChars rest
  | '&' :: 'l' :: 't' :: ';' :: rest => '<' :: unescapeChars rest
  | '&' :: 'g' :: 't' :: ';' :: rest => '>' :: unescapeChars rest
  | '&' :: '#' :: '3' :: '4' :: ';' :: rest => Char.ofNat 34 :: unescapeChars rest
  | '&' :: '#' :: '3' :: '9' :: ';' :: rest => Char.ofNat 39 :: unescapeChars rest
  | '&' :: 'q' :: 'u' :: 'o' :: 't' :: ';' :: rest => Char.ofNat 34 :: unescapeChars rest
  | '&' :: 'a' :: 'p' :: 'o' :: 's' :: ';' :: rest => Char.ofNat 39 :: unescapeChars rest
  | c :: rest => c :: unescapeChars rest

/-- `html.UnescapeString`. -/
def unescapeString (s : String) : String :=
  String.mk (unescapeChars s.data)

mutual
/-- A node of the parsed HTML tree.  `raw s` stands for a fragment installed
by `SetHtml(s)`: it serializes to `s` and is opaque to the later passes. -/
inductive Html where
  | text (s : String)
  | raw (s : String)
  | elem (tag : String) (attrs : List (String × String)) (children : HtmlList)
/-- A sibling list of HTML nodes (spelled out so that all recursion below is
structural and kernel-evaluable). -/
inductive HtmlList where
  | nil
  | cons (head : Html) (tail : HtmlList)
end

/-- Concatenation of sibling lists. -/
def htmlAppend : HtmlList → HtmlList → HtmlList
  | .nil, l => l
  | .cons n rest, l => .cons n (htmlAppend rest l)

/-- `goquery.Selection.Attr`: the value of the first attribute with the given
key, if any. -/
def getAttr (attrs : List (String × String)) (key : String) : Option String :=
  (attrs.find? (fun a => a.1 == key)).map (fun a => a.2)

/-- `goquery.Selection.RemoveAttr`: drop the attributes with the given key. -/
def removeAttr (attrs : List (String × String)) (key : String) : List (String × String) :=
  attrs.filter (fun a => !(a.1 == key))

/-- `goquery.Selection.SetAttr`: update the value in place when the key is
present, otherwise append the attribute. -/
def setAttr (attrs : List (String × String)) (key value : String) : List (String × String) :=
  if (getAttr attrs key).isSome then
    attrs.map (fun a => if a.1 == key then (a.1, value) else a)
  else attrs ++ [(key, value)]

/-- Serialize an attribute list (`x/net/html` renders every attribute as
` key="value"` with the value escaped). -/
def renderAttrs (attrs : List (String × String)) : String :=
  String.join (attrs.map (fun a => " " ++ a.1 ++ "=" ++ "\"" ++ escapeText a.2 ++ "\""))

mutual
/-- Serialize one node (`html.Render`; void-element and other special-case
serializations of the full renderer are not needed by the engine's logic). -/
def renderNode : Html → String
  | .text s => escapeText s
  | .raw s => s
  | .elem tag attrs children =>
      "<" ++ tag ++ renderAttrs attrs ++ ">" ++ renderList children ++ "</" ++ tag ++ ">"
/-- Serialize a sibling list; `goquery.Selection.Html()` of an element is
`renderList` of its children. -/
def renderList : HtmlList → String
  | .nil => ""
  | .cons n rest => renderNode n ++ renderList rest
end

/-- The lookup loop of `getTranslation`: the first message matching `msgid`
and `msgctxt` exactly and carrying a non-empty `msgstr`. -/
def findTranslation : List Message → String → String → Option String
  | [], _, _ => none
  | message :: rest, msgid, msgctxt =>
    if message.msgId = msgid ∧ message.msgStr ≠ "" ∧ message.msgContext = msgctxt then
      some message.msgStr
    else findTranslation rest msgid msgctxt

/-- `mapset.Set.Add` on the seen-set model: insert when absent. -/
def seenAdd (seen : List String) (key : String) : List String :=
  if key ∈ seen then seen else key :: seen

/-- `mapset.Set.Remove` on the seen-set model. -/
def seenRemove (seen : List String) (key : String) : List String :=
  seen.filter (fun k => !(k == key))

/-- `translationCatalog.getTranslation`: empty msgid resolves to the empty
string without touching the seen set; otherwise `msgid + msgctxt` is marked
seen and the message list is scanned.  `none` models the error return. -/
def getTranslation (t : Catalog) (msgid msgctxt : String) : Option String × Catalog :=
  if msgid = "" then (some "", t)
  else
    let t' := { t with seenMessages := seenAdd t.seenMessages (msgid ++ msgctxt) }
    (findTranslation t'.messages msgid msgctxt, t')

/-- `translationCatalog.unusedMessages`: catalog messages whose
`MsgId + MsgContext` key is not in the seen set. -/
def unusedMessages (t : Catalog) : List Message :=
  t.messages.filter (fun message => !(t.seenMessages.contains (message.msgId ++ message.msgContext)))

/-- A file-system side effect of the engine. -/
inductive FileEffect where
  | savePOFile (messages : List Message)
  | removeUnusedReport
  | writeUnusedReport (entries : List Message)
deriving DecidableEq

/-- `translationCatalog.writeUnusedMessages`: remove the report file when
nothing is unused, otherwise write the report (modelled by the entry list;
the yaml formatting of each line is elided) and return the count. -/
def writeUnusedMessages (t : Catalog) : Nat × List FileEffect :=
  let unused := unusedMessages t
  let count := unused.length
  if count = 0 then (count, [.removeUnusedReport])
  else (count, [.writeUnusedReport unused])

/-- The first loop of `savePO`: drop messages that are unseen and have an
empty `msgstr`.  The `seenMessages.Remove` call in the drop branch targets a
key the `Contains` check just found absent, so it is a no-op on the set; it
is still modelled. -/
def dropUnseenEmpty : List String → List Message → List String × List Message
  | seen, [] => (seen, [])
  | seen, msg :: rest =>
    if ¬ (msg.msgId ++ msg.msgContext) ∈ seen ∧ msg.msgStr = "" then
      dropUnseenEmpty (seenRemove seen (msg.msgId ++ msg.msgContext)) rest
    else
      let (seen', kept) := dropUnseenEmpty seen rest
      (seen', msg :: kept)

/-- The duplicate test of `savePO`'s dedup loop: exact match on both `MsgId`
and `MsgContext` against the already-kept messages. -/
def isDupe (acc : List Message) (msg : Message) : Bool :=
  acc.any (fun msg2 => msg.msgId == msg2.msgId && msg.msgContext == msg2.msgContext)

/-- One iteration of `savePO`'s dedup loop: append the message unless an
already-kept message has the same `(MsgId, MsgContext)` pair. -/
def dedupStep (acc : List Message) (msg : Message) : List Message :=
  if isDupe acc msg then acc else acc ++ [msg]

/-- The dedup loop of `savePO`: keep the first occurrence of each
`(MsgId, MsgContext)` pair. -/
def dedupMessages (msgs : List Message) : List Message :=
  msgs.foldl dedupStep []

/-- The message-list transformation performed by `savePO` before writing:
drop stale unseen placeholders, append the missing messages, deduplicate.
No reordering of any kind is applied (the function's TODO comment records
that sorting is not implemented and that `(po.File).Save` is not stable). -/
def savePOMessages (t : Catalog) : List Message :=
  let (_, uselessRemoved) := dropUnseenEmpty t.seenMessages t.messages
  dedupMessages (uselessRemoved ++ t.missingMessages)

/-- `translationCatalog.savePO`: apply `savePOMessages` to the catalog (the
receiver is a pointer, so the message list and the seen set produced by the
drop loop persist) and write the result to the po file path. -/
def savePO (t : Catalog) : Catalog × FileEffect :=
  let (seen', uselessRemoved) := dropUnseenEmpty t.seenMessages t.messages
  let deduped := dedupMessages (uselessRemoved ++ t.missingMessages)
  ({ t with messages := deduped, seenMessages := seen' }, .savePOFile deduped)

mutual
/-- The primary translation pass of `translate`
(`doc.Find("<markerTag>, [<markerAttribute>]").Each(...)`) on one node.
A matching element loses its marker attribute and its `-context` attribute;
when the target language differs from the source language, the trimmed,
unescaped inner HTML is resolved through `getTranslation`: a hit replaces the
children with the parsed translation (`SetHtml`), a miss records the unit in
`missingMessages` and keeps the original children.  Children of an element
whose content was not replaced are walked as well (they were in the
pre-collected node list). -/
def trNode (t : Catalog) : Html → Html × Catalog
  | .text s => (.text s, t)
  | .raw s => (.raw s, t)
  | .elem tag attrs children =>
    if tag = t.markerTag ∨ (getAttr attrs t.markerAttribute).isSome then
      let msgContext := (getAttr attrs (t.markerAttribute ++ "-context")).getD ""
      let attrs' := removeAttr (removeAttr attrs t.markerAttribute) (t.markerAttribute ++ "-context")
      if t.language ≠ t.sourceLanguage then
        let innerHTML := trimSpace (unescapeString (renderList children))
        if innerHTML = "" then
          let (cs, t1) := trList t children
          (.elem tag attrs' cs, t1)
        else
          match getTranslation t innerHTML msgContext with
          | (some translated, t1) => (.elem tag attrs' (.cons (.raw translated) .nil), t1)
          | (none, t1) =>
            let t2 := { t1 with missingMessages :=
                          t1.missingMessages ++ [⟨innerHTML, msgContext, ""⟩] }
            let (cs, t3) := trList t2 children
            (.elem tag attrs' cs, t3)
      else
        let (cs, t1) := trList t children
        (.elem tag attrs' cs, t1)
    else
      let (cs, t1) := trList t children
      (.elem tag attrs cs, t1)
/-- The primary translation pass over a sibling list, threading the catalog
state in document order. -/
def trList (t : Catalog) : HtmlList → HtmlList × Catalog
  | .nil => (.nil, t)
  | .cons n rest =>
    let (n1, t1) := trNode t n
    let (ns, t2) := trList t1 rest
    (.cons n1 ns, t2)
end

mutual
/-- The conditional-content pass of `translate`
(`doc.Find("[<markerAttribute>-keep-on]").Each(...)`) on one node: an element
carrying the `-keep-on` attribute is removed from the tree when the
attribute's value differs from the target language tag's string form, and
kept with the attribute stripped otherwise (the `RemoveAttr` that the Go code
also performs on a just-removed element acts on a detached node and has no
observable effect). -/
def keepOnNode (t : Catalog) : Html → HtmlList
  | .text s => .cons (.text s) .nil
  | .raw s => .cons (.raw s) .nil
  | .elem tag attrs children =>
    match getAttr attrs (t.markerAttribute ++ "-keep-on") with
    | some v =>
      if v ≠ t.language then .nil
      else .cons (.elem tag (removeAttr attrs (t.markerAttribute ++ "-keep-on"))
                    (keepOnList t children)) .nil
    | none => .cons (.elem tag attrs (keepOnList t children)) .nil
/-- The conditional-content pass over a sibling list. -/
def keepOnList (t : Catalog) : HtmlList → HtmlList
  | .nil => .nil
  | .cons n rest => htmlAppend (keepOnNode t n) (keepOnList t rest)
end

/-- The single-value branch of the attribute-translation pass: when the
target differs from the source, resolve the whole attribute value (with empty
context); a miss is recorded and falls back to the original value. -/
def translateWholeAttr (t : Catalog) (value : String) : String × Catalog :=
  if t.language ≠ t.sourceLanguage then
    match getTranslation t value "" with
    | (some translated, t1) => (translated, t1)
    | (none, t1) =>
      (value, { t1 with missingMessages := t1.missingMessages ++ [⟨value, "", ""⟩] })
  else (value, t)

/-- One iteration of the comma-list loop: resolve the item (empty context),
falling back to the original item and recording a missing message on a miss,
and append `"," + item` to the accumulator. -/
def commasStep (acc : String × Catalog) (val : String) : String × Catalog :=
  match getTranslation acc.2 val "" with
  | (some translatedItem, t1) => (acc.1 ++ "," ++ translatedItem, t1)
  | (none, t1) =>
    (acc.1 ++ "," ++ val,
     { t1 with missingMessages := t1.missingMessages ++ [⟨val, "", ""⟩] })

/-- The comma-list branch of the attribute-translation pass: when the target
differs from the source, split on commas, translate each item independently,
rejoin with commas and trim the leading/trailing separator. -/
def translateCommasAttr (t : Catalog) (value : String) : String × Catalog :=
  if t.language ≠ t.sourceLanguage then
    let (s, t1) := (splitOnComma value).foldl commasStep ("", t)
    (trimCommas s, t1)
  else (value, t)

/-- Handling of one attribute of an `-attrs`-flagged element: attributes
without the `<markerAttribute>:` prefix are untouched; `commas:`-sub-prefixed
attributes get the comma-list treatment, the rest the whole-value treatment;
in both cases the marker prefix is stripped from the attribute name
(`RemoveAttr` of the old name followed by `SetAttr` of the trimmed name). -/
def processAttr (acc : List (String × String) × Catalog) (a : String × String) :
    List (String × String) × Catalog :=
  let (cur, t) := acc
  if ¬ hasPre a.1 (t.markerAttribute ++ ":") then (cur, t)
  else if hasPre a.1 (t.markerAttribute ++ ":commas:") then
    let (translated, t1) := translateCommasAttr t a.2
    (setAttr (removeAttr cur a.1) (dropPre a.1 (t.markerAttribute ++ ":commas:")) translated, t1)
  else
    let (translated, t1) := translateWholeAttr t a.2
    (setAttr (removeAttr cur a.1) (dropPre a.1 (t.markerAttribute ++ ":")) translated, t1)

mutual
/-- The attribute-translation pass of `translate`
(`doc.Find("[<markerAttribute>-attrs]").Each(...)`) on one node: the `-attrs`
attribute is removed, and the remaining attributes are folded over with
`processAttr` (the Go loop ranges over the attribute slice read once, after
that removal). -/
def attrsNode (t : Catalog) : Html → Html × Catalog
  | .text s => (.text s, t)
  | .raw s => (.raw s, t)
  | .elem tag attrs children =>
    if (getAttr attrs (t.markerAttribute ++ "-attrs")).isSome then
      let attrs0 := removeAttr attrs (t.markerAttribute ++ "-attrs")
      let (attrs1, t1) := attrs0.foldl processAttr (attrs0, t)
      let (cs, t2) := attrsList t1 children
      (.elem tag attrs1 cs, t2)
    else
      let (cs, t1) := attrsList t children
      (.elem tag attrs cs, t1)
/-- The attribute-translation pass over a sibling list. -/
def attrsList (t : Catalog) : HtmlList → HtmlList × Catalog
  | .nil => (.nil, t)
  | .cons n rest =>
    let (n1, t1) := attrsNode t n
    let (ns, t2) := attrsList t1 rest
    (.cons n1 ns, t2)
end

/-- Go's `%q` for the plain language-tag strings interpolated into the
exposure script (no escape-needing characters occur in canonical tags). -/
def goQuote (s : String) : String := "\"" ++ s ++ "\""

/-- The script fragment appended by the JS-exposure step. -/
def jsScript (t : Catalog) : Html :=
  .raw ("<script>window.i18nLanguage = " ++ goQuote t.language ++
        "; window.i18nSourceLanguage = " ++ goQuote t.sourceLanguage ++ ";</script>")

mutual
/-- `doc.Find("head").AppendHtml(script)` on one node: append the script
fragment to the children of every `head` element. -/
def appendScriptNode (script : Html) : Html → Html
  | .text s => .text s
  | .raw s => .raw s
  | .elem tag attrs children =>
    if tag = "head" then
      .elem tag attrs (htmlAppend (appendScriptList script children) (.cons script .nil))
    else .elem tag attrs (appendScriptList script children)
/-- The JS-exposure step over a sibling list. -/
def appendScriptList (script : Html) : HtmlList → HtmlList
  | .nil => .nil
  | .cons n rest => .cons (appendScriptNode script n) (appendScriptList script rest)
end

/-- `translationCatalog.translate` on a parsed tree: optional JS exposure,
primary translation pass, conditional-content pass, attribute-translation
pass, serialization, and textual stripping of the literal bare open/close
marker tags.  Returns the serialized page together with the catalog state
(the updated `seenMessages`/`missingMessages` accumulators). -/
def translate (t : Catalog) (root : HtmlList) : String × Catalog :=
  let root' := if t.exposeToJS then appendScriptList (jsScript t) root else root
  let (ns1, t1) := trList t root'
  let ns2 := keepOnList t1 ns1
  let (ns3, t2) := attrsList t1 ns2
  let htmlString := renderList ns3
  let htmlString := replaceAll (replaceAll htmlString ("<" ++ t.markerTag ++ ">") "")
                      ("</" ++ t.markerTag ++ ">") ""
  (htmlString, t2)

/-- The response-body tail of `I18n.ServeHTTP` (module.go): after the page is
translated, `savePO` runs only when the `update_translations` flag is set,
and `writeUnusedMessages` runs unconditionally.  Returns the translated body,
the final catalog state, and the file effects in order. -/
def serveHTTP (updateTranslations : Bool) (t : Catalog) (body : HtmlList) :
    String × Catalog × List FileEffect :=
  let (translated, t1) := translate t body
  if updateTranslations then
    let (t2, e) := savePO t1
    (translated, t2, e :: (writeUnusedMessages t2).2)
  else
    (translated, t1, (writeUnusedMessages t1).2)


/-! ### Theorem-side characterizations

The following definitions are not part of the engine; they name states and
values that the theorems below prove the engine produces. -/

/-- The catalog state after `getTranslation` missed `(msgid, msgctxt)` inside
a translation pass: the concatenated key is marked seen and the unit is
appended to the missing list. -/
def missedState (t : Catalog) (msgid msgctxt : String) : Catalog :=
  { t with
    seenMessages := seenAdd t.seenMessages (msgid ++ msgctxt),
    missingMessages := t.missingMessages ++ [⟨msgid, msgctxt, ""⟩] }

/-- Concatenation of a list of strings. -/
def strJoin : List String → String
  | [] => ""
  | s :: rest => s ++ strJoin rest

/-- The value one comma-list item resolves to against a catalog's message
table: the empty item stays empty, a hit yields the msgstr, a miss falls back
to the item itself. -/
def resolveItem (t : Catalog) (it : String) : String :=
  if it = "" then ""
  else
    match findTranslation t.messages it "" with
    | some s => s
    | none => it

/-- Whether one comma-list item is recorded as missing: non-empty and without
a matching non-empty-msgstr entry. -/
def itemMisses (t : Catalog) (it : String) : Bool :=
  !(it == "") && (findTranslation t.messages it "").isNone

/-- The seen set after looking up each item of a comma list in order (each
non-empty item is added with an empty context). -/
def seenAfterItems (t : Catalog) (items : List String) : List String :=
  items.foldl (fun seen it => if it = "" then seen else seenAdd seen (it ++ "")) t.seenMessages

/-! ## Helper lemmas -/

/-- Appending a non-empty string strictly changes a string. -/
theorem append_ne_left (a b : String) (hb : b ≠ "") : a ++ b ≠ a := by
  intro h
  have h2 := congrArg String.length h
  rw [String.length_append] at h2
  have hb0 : b.length = 0 := by omega
  cases b with
  | mk data =>
    simp [String.length] at hb0
    simp [hb0] at hb

/-- Symmetric form of `append_ne_left`. -/
theorem ne_append_left (a b : String) (hb : b ≠ "") : a ≠ a ++ b :=
  fun h => append_ne_left a b hb h.symm

/-- `seenRemove` of an absent key is a no-op. -/
theorem seenRemove_not_mem (seen : List String) (k : String) (h : k ∉ seen) :
    seenRemove seen k = seen := by
  rw [seenRemove, List.filter_eq_self]
  intro a ha
  simp only [Bool.not_eq_eq_eq_not, Bool.not_true, beq_eq_false_iff_ne, ne_eq]
  intro he; exact h (he ▸ ha)

/-- The key just inserted by `seenAdd` is a member. -/
theorem seenAdd_self_mem (seen : List String) (k : String) : k ∈ seenAdd seen k := by
  rw [seenAdd]; split
  · assumption
  · exact List.mem_cons_self _ _

/-- `seenAdd` preserves existing members. -/
theorem seenAdd_mem_of_mem (seen : List String) (k k' : String) (h : k' ∈ seen) :
    k' ∈ seenAdd seen k := by
  rw [seenAdd]; split
  · assumption
  · exact List.mem_cons_of_mem _ h

/-- Membership in `seenAdd` comes from the inserted key or the original set. -/
theorem mem_of_seenAdd_mem (seen : List String) (k k' : String) (h : k' ∈ seenAdd seen k) :
    k' = k ∨ k' ∈ seen := by
  rw [seenAdd] at h
  by_cases hk : k ∈ seen
  · rw [if_pos hk] at h; exact Or.inr h
  · rw [if_neg hk] at h
    rcases List.mem_cons.mp h with h | h
    · exact Or.inl h
    · exact Or.inr h

/-- Membership description of `unusedMessages`. -/
theorem mem_unusedMessages (t : Catalog) (m : Message) :
    m ∈ unusedMessages t ↔ m ∈ t.messages ∧ (m.msgId ++ m.msgContext) ∉ t.seenMessages := by
  simp [unusedMessages, List.mem_filter]

/-- `findTranslation` is `List.find?` of the exact-match-with-nonempty-msgstr
test, projected to the `msgstr`. -/
theorem findTranslation_eq_find? (msgs : List Message) (msgid msgctxt : String) :
    findTranslation msgs msgid msgctxt
      = (msgs.find? (fun m => decide (m.msgId = msgid ∧ m.msgStr ≠ "" ∧ m.msgContext = msgctxt))).map
          Message.msgStr := by
  induction msgs with
  | nil => rfl
  | cons m rest ih =>
    rw [findTranslation]
    by_cases hm : m.msgId = msgid ∧ m.msgStr ≠ "" ∧ m.msgContext = msgctxt
    · rw [if_pos hm, List.find?_cons_of_pos _ (by simpa using hm)]
      rfl
    · rw [if_neg hm, List.find?_cons_of_neg _ (by simpa using hm)]
      exact ih

/-! ## C3: resolution semantics of `getTranslation` -/

/-- C3 counterexample: with two entries sharing the identity key `("a","")`
and both non-empty, `Resolve` returns the first `msgstr`, not the second —
so "for every catalog message with non-empty msgstr, Resolve equals that
msgstr" fails as stated. -/
theorem c3_counterexample :
    (⟨"a", "", "y"⟩ : Message)
        ∈ (⟨[⟨"a", "", "x"⟩, ⟨"a", "", "y"⟩], [], [], "fr", "en", "i18n", "i18n", false⟩ :
            Catalog).messages
    ∧ ("y" : String) ≠ ""
    ∧ (getTranslation
          ⟨[⟨"a", "", "x"⟩, ⟨"a", "", "y"⟩], [], [], "fr", "en", "i18n", "i18n", false⟩
          "a" "").1 ≠ some "y" := by
  refine ⟨by decide, by decide, by decide⟩

/-- C3 (amended): for a non-empty msgid, `getTranslation` returns the msgstr
of the *first* catalog entry matching exactly on msgid and msgctxt with a
non-empty msgstr; it succeeds iff such an entry exists, and a successful
result is never the empty placeholder. -/
theorem c3_resolution (t : Catalog) (msgid msgctxt : String) (h : msgid ≠ "") :
    (getTranslation t msgid msgctxt).1
        = (t.messages.find?
            (fun m => decide (m.msgId = msgid ∧ m.msgStr ≠ "" ∧ m.msgContext = msgctxt))).map
            Message.msgStr
    ∧ ((getTranslation t msgid msgctxt).1.isSome ↔
        ∃ m ∈ t.messages, m.msgId = msgid ∧ m.msgContext = msgctxt ∧ m.msgStr ≠ "")
    ∧ (∀ s, (getTranslation t msgid msgctxt).1 = some s →
        s ≠ "" ∧ ∃ m ∈ t.messages, m.msgId = msgid ∧ m.msgContext = msgctxt ∧ m.msgStr = s) := by
  have hres : (getTranslation t msgid msgctxt).1 = findTranslation t.messages msgid msgctxt := by
    rw [getTranslation, if_neg h]
  refine ⟨by rw [hres, findTranslation_eq_find?], ?_, ?_⟩
  · rw [hres, findTranslation_eq_find?]
    simp only [Option.isSome_map', List.find?_isSome, decide_eq_true_eq]
    constructor
    · rintro ⟨m, hm, h1, h2, h3⟩; exact ⟨m, hm, h1, h3, h2⟩
    · rintro ⟨m, hm, h1, h2, h3⟩; exact ⟨m, hm, h1, h3, h2⟩
  · intro s hs
    rw [hres, findTranslation_eq_find?] at hs
    rcases Option.map_eq_some.mp hs with ⟨m, hfind, hstr⟩
    have hp := List.find?_some hfind
    have hmem := List.mem_of_find?_eq_some hfind
    simp only [decide_eq_true_eq] at hp
    exact ⟨hstr ▸ hp.2.1, m, hmem, hp.1, hp.2.2, hstr⟩

/-- C3 witness: the amended statement at a concrete catalog. -/
theorem c3_resolution_witness :
    (getTranslation ⟨[⟨"works", "", "marche"⟩], [], [], "fr", "en", "i18n", "i18n", false⟩
        "works" "").1
      = ((⟨[⟨"works", "", "marche"⟩], [], [], "fr", "en", "i18n", "i18n", false⟩ :
          Catalog).messages.find?
            (fun m => decide (m.msgId = "works" ∧ m.msgStr ≠ "" ∧ m.msgContext = ""))).map
          Message.msgStr :=
  (c3_resolution ⟨[⟨"works", "", "marche"⟩], [], [], "fr", "en", "i18n", "i18n", false⟩
    "works" "" (by decide)).1

/-! ## C4: savePO applies no sort -/

/-- C4 evaluation: `savePO`'s message transformation leaves an unsorted
catalog unsorted (it only drops, appends and dedups — no ordering is applied
before the write, in line with the function's own TODO comment). -/
theorem c4_no_sort :
    savePOMessages ⟨[⟨"b", "", "y"⟩, ⟨"a", "", "x"⟩], [], [], "fr", "en", "i18n", "i18n", false⟩
      = [⟨"b", "", "y"⟩, ⟨"a", "", "x"⟩] := rfl

/-! ## C10: the seen set keys by plain string concatenation -/

/-- C10: the identity keys `("a","bc")` and `("ab","c")` are distinct but
concatenate to the same seen-set key, so a single lookup of `("ab","c")`
marks the catalog entry `("a","bc")` as used: it disappears from the unused
report and survives `savePO`'s stale-placeholder drop although it was never
looked up. -/
theorem c10_concatenation_collision :
    (⟨"a", "bc", ""⟩ : Message)
        ∈ (⟨[⟨"a", "bc", ""⟩], [], [], "fr", "en", "i18n", "i18n", false⟩ : Catalog).messages
    ∧ (("a", "bc") : String × String) ≠ ("ab", "c")
    ∧ ("a" ++ "bc" : String) = "ab" ++ "c"
    ∧ (getTranslation ⟨[⟨"a", "bc", ""⟩], [], [], "fr", "en", "i18n", "i18n", false⟩
          "ab" "c").2.seenMessages = ["abc"]
    ∧ unusedMessages
        (getTranslation ⟨[⟨"a", "bc", ""⟩], [], [], "fr", "en", "i18n", "i18n", false⟩
          "ab" "c").2 = []
    ∧ savePOMessages
        (getTranslation ⟨[⟨"a", "bc", ""⟩], [], [], "fr", "en", "i18n", "i18n", false⟩
          "ab" "c").2 = [⟨"a", "bc", ""⟩] := by
  refine ⟨by simp, by decide, by decide, by decide, by decide, by decide⟩


/-! ## C5: seen-marking and the unused report -/

/-- C5 counterexample: the message `("a","bc")` is in the catalog and is never
looked up — the only lookup of the pass is of the distinct identity key
`("ab","c")` — yet it does not appear in the unused report, because the seen
set stores the plain concatenation of the key parts. -/
theorem c5_counterexample :
    (⟨"a", "bc", ""⟩ : Message)
        ∈ (⟨[⟨"a", "bc", ""⟩], [], [], "fr", "en", "i18n", "i18n", false⟩ : Catalog).messages
    ∧ (("a", "bc") : String × String) ≠ ("ab", "c")
    ∧ unusedMessages
        (getTranslation ⟨[⟨"a", "bc", ""⟩], [], [], "fr", "en", "i18n", "i18n", false⟩
          "ab" "c").2 ≠ [⟨"a", "bc", ""⟩] := by
  refine ⟨by decide, by decide, by decide⟩

/-- C5 (amended): with identity keys compared through their concatenated
string form `msgid ++ msgctxt` (which is how the seen set stores them), every
lookup attempt with a non-empty msgid — hit or miss — marks the key as seen;
the unused report holds exactly the catalog messages whose concatenated key
is absent from the seen set; a message whose concatenated key was looked up
is not reported, and a reported message stays reported after lookups of other
concatenated keys. -/
theorem c5_seen_and_unused :
    (∀ (t : Catalog) (msgid msgctxt : String), msgid ≠ "" →
        (msgid ++ msgctxt) ∈ ((getTranslation t msgid msgctxt).2).seenMessages)
    ∧ (∀ (t : Catalog) (m : Message),
        m ∈ unusedMessages t ↔ m ∈ t.messages ∧ (m.msgId ++ m.msgContext) ∉ t.seenMessages)
    ∧ (∀ (t : Catalog) (msgid msgctxt : String) (m : Message), msgid ≠ "" →
        m.msgId ++ m.msgContext = msgid ++ msgctxt →
        m ∉ unusedMessages ((getTranslation t msgid msgctxt).2))
    ∧ (∀ (t : Catalog) (msgid msgctxt : String) (m : Message),
        m ∈ unusedMessages t → m.msgId ++ m.msgContext ≠ msgid ++ msgctxt →
        m ∈ unusedMessages ((getTranslation t msgid msgctxt).2)) := by
  have hseen : ∀ (t : Catalog) (msgid msgctxt : String), msgid ≠ "" →
      ((getTranslation t msgid msgctxt).2).seenMessages
        = seenAdd t.seenMessages (msgid ++ msgctxt) := by
    intro t msgid msgctxt h
    rw [getTranslation, if_neg h]
  have hmsgs : ∀ (t : Catalog) (msgid msgctxt : String),
      ((getTranslation t msgid msgctxt).2).messages = t.messages := by
    intro t msgid msgctxt
    rw [getTranslation]
    split <;> rfl
  refine ⟨?_, fun t m => mem_unusedMessages t m, ?_, ?_⟩
  · intro t msgid msgctxt h
    rw [hseen t msgid msgctxt h]
    exact seenAdd_self_mem _ _
  · intro t msgid msgctxt m h hkey hmem
    rcases (mem_unusedMessages _ m).mp hmem with ⟨_, habs⟩
    exact habs (hseen t msgid msgctxt h ▸ hkey ▸ seenAdd_self_mem _ _)
  · intro t msgid msgctxt m hmem hne
    rcases (mem_unusedMessages t m).mp hmem with ⟨hin, habs⟩
    refine (mem_unusedMessages _ m).mpr ⟨hmsgs t msgid msgctxt ▸ hin, ?_⟩
    intro hmem'
    by_cases h0 : msgid = ""
    · rw [getTranslation, if_pos h0] at hmem'
      exact habs hmem'
    · rw [hseen t msgid msgctxt h0] at hmem'
      rcases mem_of_seenAdd_mem _ _ _ hmem' with h | h
      · exact hne h
      · exact habs h

/-- C5 witness: the amended statement applied at a concrete catalog and
lookup: the looked-up key is marked seen and drops out of the unused report. -/
theorem c5_seen_and_unused_witness :
    ("works" ++ "" : String)
        ∈ ((getTranslation ⟨[⟨"works", "", ""⟩], [], [], "fr", "en", "i18n", "i18n", false⟩
            "works" "").2).seenMessages
    ∧ (⟨"works", "", ""⟩ : Message) ∉ unusedMessages
        ((getTranslation ⟨[⟨"works", "", ""⟩], [], [], "fr", "en", "i18n", "i18n", false⟩
            "works" "").2) :=
  ⟨c5_seen_and_unused.1 ⟨[⟨"works", "", ""⟩], [], [], "fr", "en", "i18n", "i18n", false⟩
      "works" "" (by decide),
   c5_seen_and_unused.2.2.1 ⟨[⟨"works", "", ""⟩], [], [], "fr", "en", "i18n", "i18n", false⟩
      "works" "" ⟨"works", "", ""⟩ (by decide) rfl⟩

/-! ## C9: which side-effect files a request produces -/

/-- C9 counterexample: with the update-translations flag disabled, handling a
buffered response still writes the unused-messages report file into the
catalog directory (`writeUnusedMessages` is called unconditionally in
`ServeHTTP`), so the directory's files do not stay unchanged. -/
theorem c9_counterexample :
    (serveHTTP false ⟨[⟨"a", "", "x"⟩], [], [], "fr", "en", "i18n", "i18n", false⟩
        HtmlList.nil).2.2
      = [FileEffect.writeUnusedReport [⟨"a", "", "x"⟩]] := rfl

/-- C9 (amended): the catalog's `.po` file write produced by `savePO` happens
exactly when the update-translations flag is enabled, while the
unused-messages report is written or removed on every handled response
regardless of the flag — the effect list of a flag-disabled request is the
report effect alone (and is never empty, and never contains a po-file
write). -/
theorem c9_side_effect_files (t : Catalog) (body : HtmlList) :
    (serveHTTP false t body).2.2 = (writeUnusedMessages (translate t body).2).2
    ∧ (serveHTTP true t body).2.2
        = (savePO (translate t body).2).2 ::
            (writeUnusedMessages (savePO (translate t body).2).1).2
    ∧ (∀ msgs : List Message, FileEffect.savePOFile msgs ∉ (serveHTTP false t body).2.2)
    ∧ (serveHTTP false t body).2.2 ≠ [] := by
  have h1 : (serveHTTP false t body).2.2 = (writeUnusedMessages (translate t body).2).2 := by
    rw [serveHTTP]
    rcases htr : translate t body with ⟨out, t1⟩
    simp
  have h2 : (serveHTTP true t body).2.2
      = (savePO (translate t body).2).2 ::
          (writeUnusedMessages (savePO (translate t body).2).1).2 := by
    rw [serveHTTP]
    rcases htr : translate t body with ⟨out, t1⟩
    rcases hs : savePO t1 with ⟨t2, e⟩
    simp [hs]
  refine ⟨h1, h2, ?_, ?_⟩
  · intro msgs hmem
    rw [h1, writeUnusedMessages] at hmem
    split at hmem <;> simp_all
  · rw [h1, writeUnusedMessages]
    split <;> simp

/-- C9 witness: the amended statement at a concrete catalog and body. -/
theorem c9_side_effect_files_witness :
    (serveHTTP false ⟨[⟨"a", "", "x"⟩], [], [], "fr", "en", "i18n", "i18n", false⟩
        HtmlList.nil).2.2
      = (writeUnusedMessages
          (translate ⟨[⟨"a", "", "x"⟩], [], [], "fr", "en", "i18n", "i18n", false⟩
            HtmlList.nil).2).2
    ∧ FileEffect.savePOFile []
        ∉ (serveHTTP false ⟨[⟨"a", "", "x"⟩], [], [], "fr", "en", "i18n", "i18n", false⟩
            HtmlList.nil).2.2 :=
  ⟨(c9_side_effect_files ⟨[⟨"a", "", "x"⟩], [], [], "fr", "en", "i18n", "i18n", false⟩
      HtmlList.nil).1,
   (c9_side_effect_files ⟨[⟨"a", "", "x"⟩], [], [], "fr", "en", "i18n", "i18n", false⟩
      HtmlList.nil).2.2.1 []⟩


/-! ## C8: the savePO message transformation -/

/-- The accumulator of the dedup loop only grows. -/
theorem dedupStep_grows (acc : List Message) (m : Message) : acc <+: dedupStep acc m := by
  rw [dedupStep]; split
  · exact List.prefix_refl acc
  · exact List.prefix_append acc [m]

/-- The initial accumulator is a prefix of the dedup loop's result. -/
theorem foldl_dedupStep_grows : ∀ (l : List Message) (acc : List Message),
    acc <+: l.foldl dedupStep acc
  | [], acc => List.prefix_refl acc
  | x :: xs, acc => by
    rw [List.foldl_cons]
    exact (dedupStep_grows acc x).trans (foldl_dedupStep_grows xs (dedupStep acc x))

/-- Every element of the dedup loop's result comes from the accumulator or
the input. -/
theorem foldl_dedupStep_mem : ∀ (l : List Message) (acc : List Message) (m : Message),
    m ∈ l.foldl dedupStep acc → m ∈ acc ∨ m ∈ l
  | [], acc, m => fun h => Or.inl h
  | x :: xs, acc, m => by
    rw [List.foldl_cons]
    intro h
    rcases foldl_dedupStep_mem xs (dedupStep acc x) m h with h' | h'
    · rw [dedupStep] at h'
      split at h'
      · exact Or.inl h'
      · rcases List.mem_append.mp h' with h'' | h''
        · exact Or.inl h''
        · exact Or.inr (List.mem_cons.mpr (Or.inl (List.mem_singleton.mp h'')))
    · exact Or.inr (List.mem_cons.mpr (Or.inr h'))

/-- `isDupe` read as a proposition. -/
theorem isDupe_eq_true_iff (acc : List Message) (m : Message) :
    isDupe acc m = true ↔ ∃ m2 ∈ acc, m.msgId = m2.msgId ∧ m.msgContext = m2.msgContext := by
  simp [isDupe]

/-- Every `(msgid, msgctxt)` pair of the input has a representative in the
dedup loop's result. -/
theorem foldl_dedupStep_key : ∀ (l : List Message) (acc : List Message) (m : Message),
    m ∈ l →
    ∃ m' ∈ l.foldl dedupStep acc, m'.msgId = m.msgId ∧ m'.msgContext = m.msgContext
  | [], _, m => fun h => absurd h (List.not_mem_nil m)
  | x :: xs, acc, m => by
    intro h
    rw [List.foldl_cons]
    rcases List.mem_cons.mp h with h' | h'
    · subst h'
      by_cases hd : isDupe acc m = true
      · rcases (isDupe_eq_true_iff acc m).mp hd with ⟨m2, hm2, hkey⟩
        have hm2' : m2 ∈ dedupStep acc m := by
          rw [dedupStep, if_pos hd]; exact hm2
        exact ⟨m2, (foldl_dedupStep_grows xs (dedupStep acc m)).subset hm2',
          hkey.1.symm, hkey.2.symm⟩
      · have hm' : m ∈ dedupStep acc m := by
          rw [dedupStep, if_neg hd]
          exact List.mem_append.mpr (Or.inr (List.mem_singleton.mpr rfl))
        exact ⟨m, (foldl_dedupStep_grows xs (dedupStep acc m)).subset hm', rfl, rfl⟩
    · exact foldl_dedupStep_key xs (dedupStep acc x) m h'

/-- The dedup loop preserves pairwise key-distinctness of the accumulator. -/
theorem foldl_dedupStep_pairwise : ∀ (l : List Message) (acc : List Message),
    acc.Pairwise (fun a b => ¬(a.msgId = b.msgId ∧ a.msgContext = b.msgContext)) →
    (l.foldl dedupStep acc).Pairwise
      (fun a b => ¬(a.msgId = b.msgId ∧ a.msgContext = b.msgContext))
  | [], _ => fun h => h
  | x :: xs, acc => by
    intro h
    rw [List.foldl_cons]
    refine foldl_dedupStep_pairwise xs (dedupStep acc x) ?_
    rw [dedupStep]
    split
    · exact h
    · rename_i hd
      rw [List.pairwise_append]
      refine ⟨h, List.pairwise_singleton _ x, ?_⟩
      intro a ha b hb
      rw [List.mem_singleton.mp hb]
      intro hkey
      refine hd ((isDupe_eq_true_iff acc x).mpr ⟨a, ha, hkey.1.symm, hkey.2.symm⟩)

/-- The first input entry carrying a given `(msgid, msgctxt)` pair (as found
by `List.find?`) survives the dedup loop, provided the accumulator does not
already hold that pair. -/
theorem foldl_dedupStep_first : ∀ (l : List Message) (acc : List Message)
    (msgid msgctxt : String) (m : Message),
    (∀ a ∈ acc, ¬(a.msgId = msgid ∧ a.msgContext = msgctxt)) →
    l.find? (fun x => x.msgId == msgid && x.msgContext == msgctxt) = some m →
    m ∈ l.foldl dedupStep acc
  | [], _, _, _, m => by intro _ h; simp at h
  | x :: xs, acc, msgid, msgctxt, m => by
    intro hacc hfind
    rw [List.foldl_cons]
    by_cases hx : x.msgId = msgid ∧ x.msgContext = msgctxt
    · rw [List.find?_cons_of_pos _ (by simp [hx.1, hx.2])] at hfind
      have hm : m = x := by injection hfind with h; exact h.symm
      subst hm
      have hd : isDupe acc m = false := by
        rw [Bool.eq_false_iff]
        intro hd
        rcases (isDupe_eq_true_iff acc m).mp hd with ⟨m2, hm2, hkey⟩
        exact hacc m2 hm2 ⟨hkey.1.symm.trans hx.1, hkey.2.symm.trans hx.2⟩
      have hm' : m ∈ dedupStep acc m := by
        rw [dedupStep, if_neg (by rw [hd]; exact Bool.false_ne_true)]
        exact List.mem_append.mpr (Or.inr (List.mem_singleton.mpr rfl))
      exact (foldl_dedupStep_grows xs (dedupStep acc m)).subset hm'
    · rw [List.find?_cons_of_neg _ (by simpa using hx)] at hfind
      refine foldl_dedupStep_first xs (dedupStep acc x) msgid msgctxt m ?_ hfind
      intro a ha
      rw [dedupStep] at ha
      split at ha
      · exact hacc a ha
      · rcases List.mem_append.mp ha with h' | h'
        · exact hacc a h'
        · rw [List.mem_singleton.mp h']; exact hx

/-- The drop loop of `savePO` leaves the seen set unchanged (the only
`Remove` it performs targets a key that is not in the set) and keeps exactly
the messages that are seen or have a non-empty `msgstr`. -/
theorem dropUnseenEmpty_eq (seen : List String) : ∀ msgs : List Message,
    dropUnseenEmpty seen msgs
      = (seen, msgs.filter
          (fun m => decide ((m.msgId ++ m.msgContext) ∈ seen) || !(m.msgStr == "")))
  | [] => rfl
  | m :: rest => by
    rw [dropUnseenEmpty]
    by_cases hc : ¬ (m.msgId ++ m.msgContext) ∈ seen ∧ m.msgStr = ""
    · rw [if_pos hc, seenRemove_not_mem seen _ hc.1, dropUnseenEmpty_eq seen rest]
      have hp : (decide ((m.msgId ++ m.msgContext) ∈ seen) || !(m.msgStr == "")) = false := by
        simp [hc.1, hc.2]
      rw [List.filter_cons, hp]
      simp
    · rw [if_neg hc, dropUnseenEmpty_eq seen rest]
      have hp : (decide ((m.msgId ++ m.msgContext) ∈ seen) || !(m.msgStr == "")) = true := by
        rcases not_and_or.mp hc with h | h
        · simp [not_not.mp h]
        · simp [h]
      rw [List.filter_cons, hp]
      simp

/-- C8: `savePOMessages` (i) yields a sequence in which every
`(msgid, msgctxt)` pair is unique; (ii) only contains messages that come from
the missing list or are catalog messages that were seen or non-empty (so a
stale unseen placeholder is dropped unless re-added through `missing`);
(iii) keeps a representative of every missing entry and (iv) of every kept
catalog message; and (v) retains the first occurrence (in
kept-catalog-then-missing order) of every `(msgid, msgctxt)` pair. -/
theorem c8_savePO_transform (t : Catalog) :
    ((savePOMessages t).Pairwise
        (fun a b => ¬(a.msgId = b.msgId ∧ a.msgContext = b.msgContext)))
    ∧ (∀ m ∈ savePOMessages t,
        m ∈ t.missingMessages ∨
          (m ∈ t.messages ∧ ((m.msgId ++ m.msgContext) ∈ t.seenMessages ∨ m.msgStr ≠ "")))
    ∧ (∀ m ∈ t.missingMessages, ∃ m' ∈ savePOMessages t,
        m'.msgId = m.msgId ∧ m'.msgContext = m.msgContext)
    ∧ (∀ m ∈ t.messages, ((m.msgId ++ m.msgContext) ∈ t.seenMessages ∨ m.msgStr ≠ "") →
        ∃ m' ∈ savePOMessages t, m'.msgId = m.msgId ∧ m'.msgContext = m.msgContext)
    ∧ (∀ (msgid msgctxt : String) (m : Message),
        ((dropUnseenEmpty t.seenMessages t.messages).2 ++ t.missingMessages).find?
            (fun x => x.msgId == msgid && x.msgContext == msgctxt) = some m →
        m ∈ savePOMessages t) := by
  have hsave : savePOMessages t
      = dedupMessages ((dropUnseenEmpty t.seenMessages t.messages).2 ++ t.missingMessages) := by
    rw [savePOMessages]
  have hkept : (dropUnseenEmpty t.seenMessages t.messages).2
      = t.messages.filter
          (fun m => decide ((m.msgId ++ m.msgContext) ∈ t.seenMessages) || !(m.msgStr == "")) := by
    rw [dropUnseenEmpty_eq]
  refine ⟨?_, ?_, ?_, ?_, ?_⟩
  · rw [hsave, dedupMessages]
    exact foldl_dedupStep_pairwise _ [] List.Pairwise.nil
  · intro m hm
    rw [hsave, dedupMessages] at hm
    rcases foldl_dedupStep_mem _ [] m hm with h | h
    · exact absurd h (List.not_mem_nil m)
    · rcases List.mem_append.mp h with h' | h'
      · rw [hkept] at h'
        rcases List.mem_filter.mp h' with ⟨hin, hp⟩
        refine Or.inr ⟨hin, ?_⟩
        rcases Bool.or_eq_true_iff.mp hp with h'' | h''
        · exact Or.inl (of_decide_eq_true h'')
        · exact Or.inr (by simpa using h'')
      · exact Or.inl h'
  · intro m hm
    rw [hsave, dedupMessages]
    exact foldl_dedupStep_key _ [] m (List.mem_append.mpr (Or.inr hm))
  · intro m hm hkeep
    rw [hsave, dedupMessages]
    refine foldl_dedupStep_key _ [] m (List.mem_append.mpr (Or.inl ?_))
    rw [hkept]
    refine List.mem_filter.mpr ⟨hm, ?_⟩
    rcases hkeep with h | h
    · simp [h]
    · simp [h]
  · intro msgid msgctxt m hfind
    rw [hsave, dedupMessages]
    exact foldl_dedupStep_first _ [] msgid msgctxt m (by intro a ha; simp at ha) hfind

/-- C8 witness: a concrete catalog with a stale unseen placeholder (dropped),
a seen placeholder (kept) and a missing entry (appended): uniqueness holds
and the missing entry has a representative in the saved sequence. -/
theorem c8_savePO_transform_witness :
    ((savePOMessages
        ⟨[⟨"stale", "", ""⟩, ⟨"kept", "", "k"⟩], [], [⟨"new", "", ""⟩], "fr", "en",
          "i18n", "i18n", false⟩).Pairwise
        (fun a b => ¬(a.msgId = b.msgId ∧ a.msgContext = b.msgContext)))
    ∧ (∃ m' ∈ savePOMessages
        ⟨[⟨"stale", "", ""⟩, ⟨"kept", "", "k"⟩], [], [⟨"new", "", ""⟩], "fr", "en",
          "i18n", "i18n", false⟩,
        m'.msgId = ("new" : String) ∧ m'.msgContext = ("" : String)) :=
  ⟨(c8_savePO_transform
      ⟨[⟨"stale", "", ""⟩, ⟨"kept", "", "k"⟩], [], [⟨"new", "", ""⟩], "fr", "en",
        "i18n", "i18n", false⟩).1,
   (c8_savePO_transform
      ⟨[⟨"stale", "", ""⟩, ⟨"kept", "", "k"⟩], [], [⟨"new", "", ""⟩], "fr", "en",
        "i18n", "i18n", false⟩).2.2.1 ⟨"new", "", ""⟩ (by decide)⟩


/-! ## C1: the source-language pass never touches the resolver state -/

/-- Whole-value attribute translation is the identity on value and state when
the target equals the source language. -/
theorem translateWholeAttr_src (t : Catalog) (h : t.language = t.sourceLanguage) (v : String) :
    translateWholeAttr t v = (v, t) := by
  rw [translateWholeAttr, if_neg (by simp [h])]

/-- Comma-list attribute translation is the identity on value and state when
the target equals the source language. -/
theorem translateCommasAttr_src (t : Catalog) (h : t.language = t.sourceLanguage) (v : String) :
    translateCommasAttr t v = (v, t) := by
  rw [translateCommasAttr, if_neg (by simp [h])]

/-- One attribute-processing step keeps the catalog state unchanged when the
target equals the source language. -/
theorem processAttr_src (t : Catalog) (h : t.language = t.sourceLanguage)
    (cur : List (String × String)) (a : String × String) :
    (processAttr (cur, t) a).2 = t := by
  rw [processAttr]
  dsimp only
  split
  · rfl
  · split
    · rw [translateCommasAttr_src t h]
    · rw [translateWholeAttr_src t h]

/-- The attribute fold keeps the catalog state unchanged when the target
equals the source language. -/
theorem processAttrFold_src (t : Catalog) (h : t.language = t.sourceLanguage) :
    ∀ (l : List (String × String)) (cur : List (String × String)),
      (l.foldl processAttr (cur, t)).2 = t
  | [], _ => rfl
  | a :: rest, cur => by
    rw [List.foldl_cons]
    rcases hp : processAttr (cur, t) a with ⟨cur', t'⟩
    have h2 := processAttr_src t h cur a
    rw [hp] at h2
    dsimp at h2
    rw [h2]
    exact processAttrFold_src t h rest cur'

mutual
/-- The primary pass keeps the catalog state unchanged on a node when the
target equals the source language (no resolver call is reachable). -/
theorem trNode_state_id (t : Catalog) (h : t.language = t.sourceLanguage) :
    ∀ n : Html, (trNode t n).2 = t
  | .text _ => rfl
  | .raw _ => rfl
  | .elem tag attrs children => by
    rw [trNode]
    split
    · rw [if_neg (by simp [h])]
      rcases htr : trList t children with ⟨cs, t1⟩
      have h2 := trList_state_id t h children
      rw [htr] at h2
      simpa using h2
    · rcases htr : trList t children with ⟨cs, t1⟩
      have h2 := trList_state_id t h children
      rw [htr] at h2
      simpa using h2
/-- The primary pass keeps the catalog state unchanged on a sibling list when
the target equals the source language. -/
theorem trList_state_id (t : Catalog) (h : t.language = t.sourceLanguage) :
    ∀ l : HtmlList, (trList t l).2 = t
  | .nil => rfl
  | .cons n rest => by
    rw [trList]
    rcases hn : trNode t n with ⟨n1, t1⟩
    have h1 := trNode_state_id t h n
    rw [hn] at h1
    dsimp at h1
    dsimp only
    rw [h1]
    rcases hr : trList t rest with ⟨ns, t2⟩
    have h2 := trList_state_id t h rest
    rw [hr] at h2
    simpa using h2
end

mutual
/-- The attribute-translation pass keeps the catalog state unchanged on a
node when the target equals the source language. -/
theorem attrsNode_state_id (t : Catalog) (h : t.language = t.sourceLanguage) :
    ∀ n : Html, (attrsNode t n).2 = t
  | .text _ => rfl
  | .raw _ => rfl
  | .elem tag attrs children => by
    rw [attrsNode]
    split
    · dsimp only
      rcases hf : List.foldl processAttr
          (removeAttr attrs (t.markerAttribute ++ "-attrs"), t)
          (removeAttr attrs (t.markerAttribute ++ "-attrs")) with ⟨attrs1, t1⟩
      have h1 := processAttrFold_src t h (removeAttr attrs (t.markerAttribute ++ "-attrs"))
        (removeAttr attrs (t.markerAttribute ++ "-attrs"))
      rw [hf] at h1
      dsimp at h1
      dsimp only
      rw [h1]
      rcases hc : attrsList t children with ⟨cs, t2⟩
      have h2 := attrsList_state_id t h children
      rw [hc] at h2
      simpa using h2
    · rcases hc : attrsList t children with ⟨cs, t1⟩
      have h2 := attrsList_state_id t h children
      rw [hc] at h2
      simpa using h2
/-- The attribute-translation pass keeps the catalog state unchanged on a
sibling list when the target equals the source language. -/
theorem attrsList_state_id (t : Catalog) (h : t.language = t.sourceLanguage) :
    ∀ l : HtmlList, (attrsList t l).2 = t
  | .nil => rfl
  | .cons n rest => by
    rw [attrsList]
    rcases hn : attrsNode t n with ⟨n1, t1⟩
    have h1 := attrsNode_state_id t h n
    rw [hn] at h1
    dsimp at h1
    dsimp only
    rw [h1]
    rcases hr : attrsList t rest with ⟨ns, t2⟩
    have h2 := attrsList_state_id t h rest
    rw [hr] at h2
    simpa using h2
end

/-- `translate` returns the catalog state untouched when the target equals
the source language: the seen and missing accumulators are exactly as before,
i.e. no resolver interaction happened. -/
theorem translate_state_id (t : Catalog) (h : t.language = t.sourceLanguage)
    (root : HtmlList) : (translate t root).2 = t := by
  rw [translate]
  dsimp only
  rcases htr : trList t (if t.exposeToJS = true then appendScriptList (jsScript t) root else root)
    with ⟨ns1, t1⟩
  have h1 := trList_state_id t h
    (if t.exposeToJS = true then appendScriptList (jsScript t) root else root)
  rw [htr] at h1
  dsimp at h1
  dsimp only
  rw [h1]
  rcases ha : attrsList t (keepOnList t ns1) with ⟨ns3, t2⟩
  have h2 := attrsList_state_id t h (keepOnList t ns1)
  rw [ha] at h2
  simpa using h2

/-- C1: when the catalog's target tag equals its source tag, translating any
page leaves the catalog state (in particular the seen and missing
accumulators) exactly unchanged — the resolver is never consulted — and on
the spec's example the markers are stripped with the text intact:
`<span i18n>works</span>` becomes `<span>works</span>`. -/
theorem c1_source_language_noop (t : Catalog) (root : HtmlList)
    (h : t.language = t.sourceLanguage) :
    (translate t root).2 = t
    ∧ (translate ⟨[], [], [], "en", "en", "i18n", "i18n", false⟩
          (.cons (.elem "span" [("i18n", "")] (.cons (.text "works") .nil)) .nil)).1
        = "<span>works</span>" :=
  ⟨translate_state_id t h root, rfl⟩

/-- C1 witness: the no-op path applied at the spec's own example. -/
theorem c1_source_language_noop_witness :
    (translate ⟨[], [], [], "en", "en", "i18n", "i18n", false⟩
        (.cons (.elem "span" [("i18n", "")] (.cons (.text "works") .nil)) .nil)).2
      = ⟨[], [], [], "en", "en", "i18n", "i18n", false⟩
    ∧ (translate ⟨[], [], [], "en", "en", "i18n", "i18n", false⟩
        (.cons (.elem "span" [("i18n", "")] (.cons (.text "works") .nil)) .nil)).1
      = "<span>works</span>" :=
  c1_source_language_noop ⟨[], [], [], "en", "en", "i18n", "i18n", false⟩
    (.cons (.elem "span" [("i18n", "")] (.cons (.text "works") .nil)) .nil) rfl


/-! ## C6: conditional-content (`-keep-on`) pruning -/

/-- C6: an element carrying the `-keep-on` attribute is removed from the tree
entirely when the attribute's value differs from the target language tag's
string form, and otherwise is kept with exactly the `-keep-on` attribute
stripped (children are still walked by the same pass). -/
theorem c6_keep_on (t : Catalog) (tag v : String) (attrs : List (String × String))
    (children : HtmlList) (h : getAttr attrs (t.markerAttribute ++ "-keep-on") = some v) :
    keepOnNode t (.elem tag attrs children)
      = if v = t.language
        then .cons (.elem tag (removeAttr attrs (t.markerAttribute ++ "-keep-on"))
                (keepOnList t children)) .nil
        else .nil := by
  rw [keepOnNode, h]
  dsimp only
  by_cases hv : v = t.language
  · subst hv
    simp
  · simp [hv]

/-- C6 witness: the spec's example — `<div i18n-keep-on="fr">x</div>` kept
with the attribute stripped when the target is `fr`. -/
theorem c6_keep_on_witness :
    keepOnNode ⟨[], [], [], "fr", "en", "i18n", "i18n", false⟩
        (.elem "div" [("i18n-keep-on", "fr")] (.cons (.text "x") .nil))
      = if ("fr" : String) = (⟨[], [], [], "fr", "en", "i18n", "i18n", false⟩ : Catalog).language
        then .cons (.elem "div"
            (removeAttr [("i18n-keep-on", "fr")]
              ((⟨[], [], [], "fr", "en", "i18n", "i18n", false⟩ : Catalog).markerAttribute
                ++ "-keep-on"))
            (keepOnList ⟨[], [], [], "fr", "en", "i18n", "i18n", false⟩
              (.cons (.text "x") .nil))) .nil
        else .nil :=
  c6_keep_on ⟨[], [], [], "fr", "en", "i18n", "i18n", false⟩ "div" "fr"
    [("i18n-keep-on", "fr")] (.cons (.text "x") .nil) (by decide)


/-! ## C2: a missing translation degrades gracefully -/

/-- C2: a marked unit whose trimmed content has no matching catalog entry
does not abort the pass: the element keeps its original text (markers
stripped), the pass records `(msgid, msgctxt)` in the missing list (and the
concatenated key as seen), and processing continues with the remaining
nodes from that state. -/
theorem c2_miss_graceful (t : Catalog) (tag ctx s : String) (rest : HtmlList)
    (hlang : t.language ≠ t.sourceLanguage)
    (hne : trimSpace (unescapeString (renderList (.cons (.text s) .nil))) ≠ "")
    (hmiss : findTranslation t.messages
        (trimSpace (unescapeString (renderList (.cons (.text s) .nil)))) ctx = none) :
    trList t (.cons (.elem tag
          [(t.markerAttribute, ""), (t.markerAttribute ++ "-context", ctx)]
          (.cons (.text s) .nil)) rest)
      = (.cons (.elem tag [] (.cons (.text s) .nil))
            (trList (missedState t
              (trimSpace (unescapeString (renderList (.cons (.text s) .nil)))) ctx) rest).1,
         (trList (missedState t
              (trimSpace (unescapeString (renderList (.cons (.text s) .nil)))) ctx) rest).2) := by
  have hb1 : ((t.markerAttribute : String) == t.markerAttribute) = true :=
    beq_self_eq_true t.markerAttribute
  have hb2 : ((t.markerAttribute ++ "-context" : String) == t.markerAttribute) = false := by
    rw [beq_eq_false_iff_ne]
    exact append_ne_left t.markerAttribute "-context" (by decide)
  have hb3 : ((t.markerAttribute : String) == t.markerAttribute ++ "-context") = false := by
    rw [beq_eq_false_iff_ne]
    exact ne_append_left t.markerAttribute "-context" (by decide)
  have hb4 : ((t.markerAttribute ++ "-context" : String)
      == t.markerAttribute ++ "-context") = true :=
    beq_self_eq_true _
  have hga : getAttr [(t.markerAttribute, ""), (t.markerAttribute ++ "-context", ctx)]
      t.markerAttribute = some "" := by
    simp [getAttr, List.find?, hb1]
  have hctx : getAttr [(t.markerAttribute, ""), (t.markerAttribute ++ "-context", ctx)]
      (t.markerAttribute ++ "-context") = some ctx := by
    simp [getAttr, List.find?, hb3, hb4]
  have hra : removeAttr (removeAttr
        [(t.markerAttribute, ""), (t.markerAttribute ++ "-context", ctx)] t.markerAttribute)
      (t.markerAttribute ++ "-context") = [] := by
    simp [removeAttr, List.filter, hb1, hb2, hb4]
  have hgt : getTranslation t
        (trimSpace (unescapeString (renderList (.cons (.text s) .nil)))) ctx
      = (none, { t with seenMessages := seenAdd t.seenMessages (trimSpace (unescapeString (renderList (.cons (.text s) .nil))) ++ ctx) }) := by
    rw [getTranslation, if_neg hne]
    dsimp only
    rw [hmiss]
  rw [trList, trNode, hga]
  have hcond : tag = t.markerTag ∨ ((some "" : Option String)).isSome = true := Or.inr rfl
  rw [if_pos hcond]
  rw [if_pos hlang]
  dsimp only
  rw [if_neg hne, hctx]
  simp only [Option.getD_some]
  rw [hgt]
  dsimp only
  rw [hra]
  rfl

/-- C2 witness: the spec's example — `<span i18n>missing text</span>` against
an empty catalog keeps the text and records the miss. -/
theorem c2_miss_graceful_witness :
    trList ⟨[], [], [], "fr", "en", "i18n", "i18n", false⟩
        (.cons (.elem "span"
          [(("i18n" : String), ("" : String)), (("i18n" : String) ++ "-context", ("" : String))]
          (.cons (.text "missing text") .nil)) .nil)
      = (.cons (.elem "span" [] (.cons (.text "missing text") .nil))
            (trList (missedState ⟨[], [], [], "fr", "en", "i18n", "i18n", false⟩
              (trimSpace (unescapeString
                (renderList (.cons (.text "missing text") .nil)))) "") .nil).1,
         (trList (missedState ⟨[], [], [], "fr", "en", "i18n", "i18n", false⟩
              (trimSpace (unescapeString
                (renderList (.cons (.text "missing text") .nil)))) "") .nil).2) :=
  c2_miss_graceful ⟨[], [], [], "fr", "en", "i18n", "i18n", false⟩ "span" "" "missing text"
    .nil (by decide) (by decide) (by decide)


/-! ## C7: comma-list attribute translation -/

/-- `resolveItem` only reads the message table. -/
theorem resolveItem_congr (t t' : Catalog) (hm : t'.messages = t.messages) (it : String) :
    resolveItem t' it = resolveItem t it := by
  rw [resolveItem, resolveItem, hm]

/-- `itemMisses` only reads the message table. -/
theorem itemMisses_congr (t t' : Catalog) (hm : t'.messages = t.messages) (it : String) :
    itemMisses t' it = itemMisses t it := by
  rw [itemMisses, itemMisses, hm]

/-- Updating the per-pass accumulators does not change item resolution. -/
theorem resolveItem_acc (t : Catalog) (seen : List String) (miss : List Message) (x : String) :
    resolveItem { t with seenMessages := seen, missingMessages := miss } x
      = resolveItem t x := rfl

/-- Updating the per-pass accumulators does not change the miss test. -/
theorem itemMisses_acc (t : Catalog) (seen : List String) (miss : List Message) :
    itemMisses { t with seenMessages := seen, missingMessages := miss }
      = itemMisses t := rfl

/-- Closed form of the comma-list loop: the accumulator collects
`"," ++ resolveItem` for each item in order, every missing non-empty item is
appended to the missing list with empty context, and every non-empty item's
concatenated key is marked seen. -/
theorem commasFold_eq : ∀ (items : List String) (acc : String) (t : Catalog),
    items.foldl commasStep (acc, t)
      = (acc ++ strJoin (items.map (fun it => "," ++ resolveItem t it)),
         { t with
            seenMessages := seenAfterItems t items,
            missingMessages := t.missingMessages
              ++ (items.filter (itemMisses t)).map (fun it => (⟨it, "", ""⟩ : Message)) })
  | [], acc, t => by
    simp [strJoin, seenAfterItems]
  | it :: rest, acc, t => by
    rw [List.foldl_cons]
    by_cases h0 : it = ""
    · subst h0
      have hstep : commasStep (acc, t) "" = (acc ++ "," ++ "", t) := rfl
      rw [hstep, commasFold_eq rest (acc ++ "," ++ "") t]
      have hri : resolveItem t "" = "" := rfl
      have hmi : itemMisses t "" = false := rfl
      congr 1
      simp [strJoin, hri, hmi, seenAfterItems, String.append_assoc]
    · have hgt : getTranslation t it ""
          = (findTranslation t.messages it "",
             { t with seenMessages := seenAdd t.seenMessages (it ++ "") }) := by
        rw [getTranslation, if_neg h0]
      have hmsgs : ({ t with seenMessages := seenAdd t.seenMessages (it ++ "") } :
          Catalog).messages = t.messages := rfl
      cases hf : findTranslation t.messages it "" with
      | some str =>
        have hstep : commasStep (acc, t) it
            = (acc ++ "," ++ str,
               { t with seenMessages := seenAdd t.seenMessages (it ++ "") }) := by
          rw [commasStep, hgt, hf]
        rw [hstep, commasFold_eq rest (acc ++ "," ++ str)
          { t with seenMessages := seenAdd t.seenMessages (it ++ "") }]
        have hri : resolveItem t it = str := by rw [resolveItem, if_neg h0, hf]
        have hmi : itemMisses t it = false := by simp [itemMisses, hf]
        congr 1 <;>
          simp [resolveItem_acc, itemMisses_acc, strJoin, hri, hmi, seenAfterItems, h0,
            String.append_assoc]
      | none =>
        have hstep : commasStep (acc, t) it
            = (acc ++ "," ++ it,
               { t with
                  seenMessages := seenAdd t.seenMessages (it ++ ""),
                  missingMessages := t.missingMessages ++ [⟨it, "", ""⟩] }) := by
          rw [commasStep, hgt, hf]
        rw [hstep, commasFold_eq rest (acc ++ "," ++ it)
          { t with
             seenMessages := seenAdd t.seenMessages (it ++ ""),
             missingMessages := t.missingMessages ++ [⟨it, "", ""⟩] }]
        have hri : resolveItem t it = it := by rw [resolveItem, if_neg h0, hf]
        have hmi : itemMisses t it = true := by simp [itemMisses, h0, hf]
        congr 1 <;>
          simp [resolveItem_acc, itemMisses_acc, strJoin, hri, hmi, seenAfterItems, h0,
            String.append_assoc]

/-- Closed form of `translateCommasAttr` when target differs from source. -/
theorem translateCommasAttr_eq (t : Catalog) (h : t.language ≠ t.sourceLanguage) (v : String) :
    translateCommasAttr t v
      = (trimCommas (strJoin ((splitOnComma v).map (fun it => "," ++ resolveItem t it))),
         { t with
            seenMessages := seenAfterItems t (splitOnComma v),
            missingMessages := t.missingMessages
              ++ ((splitOnComma v).filter (itemMisses t)).map
                  (fun it => (⟨it, "", ""⟩ : Message)) }) := by
  rw [translateCommasAttr, if_pos h, commasFold_eq (splitOnComma v) "" t]
  simp

/-- C7: on an `-attrs`-flagged element, an attribute named with the `commas:`
sub-prefix has each comma-separated item of its value translated
independently — a missing item falls back to its own text and is enqueued
into the missing list with empty context — the items are rejoined with
commas and the leading/trailing separator is trimmed, and the attribute is
renamed by stripping the marker prefix. -/
theorem c7_commas_attribute (t : Catalog) (h : t.language ≠ t.sourceLanguage) :
    (∀ v : String, translateCommasAttr t v
      = (trimCommas (strJoin ((splitOnComma v).map (fun it => "," ++ resolveItem t it))),
         { t with
            seenMessages := seenAfterItems t (splitOnComma v),
            missingMessages := t.missingMessages
              ++ ((splitOnComma v).filter (itemMisses t)).map
                  (fun it => (⟨it, "", ""⟩ : Message)) }))
    ∧ (t.markerAttribute = "i18n" → ∀ (cur : List (String × String)) (v : String),
        processAttr (cur, t) ("i18n:commas:class", v)
          = (setAttr (removeAttr cur "i18n:commas:class") "class"
              (translateCommasAttr t v).1,
             (translateCommasAttr t v).2)) := by
  refine ⟨fun v => translateCommasAttr_eq t h v, ?_⟩
  intro hM cur v
  rw [processAttr]
  dsimp only
  rw [hM]
  rw [if_neg (by decide), if_pos (by decide)]
  rcases ht : translateCommasAttr t v with ⟨translated, t1⟩
  rfl

/-- C7 witness: the closed form and the renaming applied at the spec's
example `i18n:commas:class="a,b"` against an empty catalog. -/
theorem c7_commas_attribute_witness :
    translateCommasAttr ⟨[], [], [], "fr", "en", "i18n", "i18n", false⟩ "a,b"
      = (trimCommas (strJoin ((splitOnComma "a,b").map
          (fun it => "," ++ resolveItem ⟨[], [], [], "fr", "en", "i18n", "i18n", false⟩ it))),
         { (⟨[], [], [], "fr", "en", "i18n", "i18n", false⟩ : Catalog) with
            seenMessages := seenAfterItems ⟨[], [], [], "fr", "en", "i18n", "i18n", false⟩
              (splitOnComma "a,b"),
            missingMessages := (⟨[], [], [], "fr", "en", "i18n", "i18n", false⟩ :
                Catalog).missingMessages
              ++ ((splitOnComma "a,b").filter
                    (itemMisses ⟨[], [], [], "fr", "en", "i18n", "i18n", false⟩)).map
                  (fun it => (⟨it, "", ""⟩ : Message)) })
    ∧ processAttr ([("i18n:commas:class", "a,b")],
          ⟨[], [], [], "fr", "en", "i18n", "i18n", false⟩) ("i18n:commas:class", "a,b")
        = (setAttr (removeAttr [("i18n:commas:class", "a,b")] "i18n:commas:class") "class"
            (translateCommasAttr ⟨[], [], [], "fr", "en", "i18n", "i18n", false⟩ "a,b").1,
           (translateCommasAttr ⟨[], [], [], "fr", "en", "i18n", "i18n", false⟩ "a,b").2) :=
  ⟨(c7_commas_attribute ⟨[], [], [], "fr", "en", "i18n", "i18n", false⟩ (by decide)).1 "a,b",
   (c7_commas_attribute ⟨[], [], [], "fr", "en", "i18n", "i18n", false⟩ (by decide)).2 rfl
     [("i18n:commas:class", "a,b")] "a,b"⟩

end CaddyI18n
